import Mathlib

/-!
Verification development for the lumol interaction-dispatch and
energy-evaluation engine.

The first part models the `System` type from
`src/lumol-core/src/sys/system.rs`: the particle-kind registry, the
interaction registry with canonicalized kind tuples, the cutoff-vs-cell
checks of `add_pair_potential` / `set_coulomb_potential`, the warn-once
lookup functions, and the external temperature handling.

Floating point values (`f64`) are modelled as exact rationals, Rust
panics as `Except.error`, and the `warn_once!` macro from the
`log_once` crate as a set of already-emitted messages threaded through
the system state.
-/

namespace Lumol

/-- A pair interaction, reduced to the only datum the `System` code
inspects: its finite cutoff radius (`PairInteraction::cutoff`). -/
structure PairInteraction where
  cutoff : ℚ
deriving DecidableEq, Repr

/-- A coulombic potential, reduced to the only datum
`System::set_coulomb_potential` inspects: its optional real-space
cutoff (`CoulombicPotential::cutoff`, `None` for purely long-ranged
methods). -/
structure CoulombicPotential where
  cutoff : Option ℚ
deriving DecidableEq, Repr

/-- Modelled from the spec: the unit cell of the configuration
(`UnitCell` lives outside the excerpt). Only its three cell lengths
are consulted by the `System` code. -/
structure UnitCell where
  a : ℚ
  b : ℚ
  c : ℚ
deriving DecidableEq, Repr

/-- The three cell lengths, as returned by `UnitCell::lengths`. -/
def UnitCell.lengths (cell : UnitCell) : List ℚ :=
  [cell.a, cell.b, cell.c]

/-- Canonical ordering of a pair kind tuple, the sorting used by the
interactions registry (mirrored by the name sorting in
`System::pair_potentials`). -/
def normalizePair (i j : ℕ) : ℕ × ℕ :=
  if i < j then (i, j) else (j, i)

/-- Canonical ordering of an angle kind triple, the sorting used by the
interactions registry (mirrored by the name sorting in
`System::angle_potentials`). -/
def normalizeAngle (i j k : ℕ) : ℕ × ℕ × ℕ :=
  if i < k then (i, j, k) else (k, j, i)

/-- Canonical ordering of a dihedral kind quadruple. This follows the
sorting in `System::dihedral_potentials`, which the source comments is
"the same sorting as interactions": compare `max(i, j)` with
`max(k, m)`, breaking ties by comparing `min(i, j)` with `min(k, m)`. -/
def normalizeDihedral (i j k m : ℕ) : ℕ × ℕ × ℕ × ℕ :=
  if max i j = max k m then
    if min i j < min k m then (i, j, k, m) else (m, k, j, i)
  else if max i j < max k m then (i, j, k, m) else (m, k, j, i)

/-- Modelled from the spec: the `Interactions` registry (its own file
is outside the excerpt). Four association lists keyed by canonicalized
kind tuples, at most one coulombic potential, and a list of global
potentials. Bond, angle, dihedral and global potentials are opaque
trait objects in the source; they are modelled as numeric tags. -/
structure Interactions where
  pairs : List ((ℕ × ℕ) × PairInteraction)
  bonds : List ((ℕ × ℕ) × ℕ)
  angles : List ((ℕ × ℕ × ℕ) × ℕ)
  dihedrals : List ((ℕ × ℕ × ℕ × ℕ) × ℕ)
  coulomb : Option CoulombicPotential
  globals : List ℕ
deriving DecidableEq, Repr

/-- The empty `Interactions::new()` registry. -/
def Interactions.new : Interactions :=
  ⟨[], [], [], [], none, []⟩

/-- A particle, reduced to the data the `System` code manipulates:
its name and its assigned kind. -/
structure Particle where
  name : String
  kind : ℕ
deriving DecidableEq, Repr

/-- The `System` type from `src/lumol-core/src/sys/system.rs`. The
`kinds: BTreeMap<String, ParticleKind>` field is modelled as the list
of distinct names in first-assignment order (the map always sends a
name to the index at which it was first inserted, because the new kind
is `ParticleKind(kinds.len())`). The `warned` field models the global
state of the `warn_once!` macro: the set of messages already
emitted. -/
structure System where
  cell : UnitCell
  kinds : List String
  particles : List Particle
  interactions : Interactions
  external_temperature : Option ℚ
  warned : List String
deriving DecidableEq, Repr

/-- `System::with_cell`: an empty system with a given unit cell. -/
def System.new (cell : UnitCell) : System :=
  ⟨cell, [], [], Interactions.new, none, []⟩

/-- Lookup of a name in the kind registry: the index of its first
occurrence, if present. This is the value the `BTreeMap` associates to
the name. -/
def kindOf : List String → String → Option ℕ
  | [], _ => none
  | k :: rest, name =>
    if k = name then some 0 else (kindOf rest name).map (· + 1)

/-- `System::get_kind`: return the kind already assigned to `name`, or
assign the next dense integer (`ParticleKind(self.kinds.len())`) and
record it. Returns the kind and the updated registry. -/
def getKind (kinds : List String) (name : String) : ℕ × List String :=
  match kindOf kinds name with
  | some i => (i, kinds)
  | none => (kinds.length, kinds ++ [name])

/-- The kind-assignment loop of `System::add_molecule`: assign a kind
to each particle name in order, threading the registry. -/
def assignKinds : List String → List String → List Particle × List String
  | [], kinds => ([], kinds)
  | name :: rest, kinds =>
    let p := getKind kinds name
    let r := assignKinds rest p.2
    (⟨name, p.1⟩ :: r.1, r.2)

/-- `System::add_molecule`: set the kind of every particle of the
molecule from its name, then append the particles to the
configuration. A molecule is modelled by the list of its particle
names. -/
def System.add_molecule (sys : System) (names : List String) : System :=
  let r := assignKinds names sys.kinds
  { sys with kinds := r.2, particles := sys.particles ++ r.1 }

/-- The panic message of the cutoff-versus-cell check. -/
def cutoffPanicMessage : String :=
  "Can not add a potential with a cutoff bigger than half of the smallest cell length. Try increasing the cell size or decreasing the cutoff."

/-- `System::add_pair_potential`: panic if any cell length `d`
satisfies `0.5 * d < potential.cutoff()`, otherwise resolve the kinds
of the two names and record the potential under the canonicalized kind
pair. -/
def System.add_pair_potential (sys : System) (i j : String)
    (potential : PairInteraction) : Except String System :=
  if sys.cell.lengths.any (fun d => decide (d / 2 < potential.cutoff)) then
    .error cutoffPanicMessage
  else
    let pi := getKind sys.kinds i
    let pj := getKind pi.2 j
    .ok { sys with
      kinds := pj.2,
      interactions := { sys.interactions with
        pairs := sys.interactions.pairs ++ [(normalizePair pi.1 pj.1, potential)] } }

/-- `System::add_bond_potential`: resolve the kinds and record the
potential under the canonicalized kind pair (no cutoff check). -/
def System.add_bond_potential (sys : System) (i j : String)
    (potential : ℕ) : System :=
  let pi := getKind sys.kinds i
  let pj := getKind pi.2 j
  { sys with
    kinds := pj.2,
    interactions := { sys.interactions with
      bonds := sys.interactions.bonds ++ [(normalizePair pi.1 pj.1, potential)] } }

/-- `System::add_angle_potential`: resolve the kinds and record the
potential under the canonicalized kind triple. -/
def System.add_angle_potential (sys : System) (i j k : String)
    (potential : ℕ) : System :=
  let pi := getKind sys.kinds i
  let pj := getKind pi.2 j
  let pk := getKind pj.2 k
  { sys with
    kinds := pk.2,
    interactions := { sys.interactions with
      angles := sys.interactions.angles ++ [(normalizeAngle pi.1 pj.1 pk.1, potential)] } }

/-- `System::add_dihedral_potential`: resolve the kinds and record the
potential under the canonicalized kind quadruple. -/
def System.add_dihedral_potential (sys : System) (i j k m : String)
    (potential : ℕ) : System :=
  let pi := getKind sys.kinds i
  let pj := getKind pi.2 j
  let pk := getKind pj.2 k
  let pm := getKind pk.2 m
  { sys with
    kinds := pm.2,
    interactions := { sys.interactions with
      dihedrals := sys.interactions.dihedrals ++
        [(normalizeDihedral pi.1 pj.1 pk.1 pm.1, potential)] } }

/-- `System::set_coulomb_potential`: when the potential reports a
finite cutoff, panic if any cell length `d` satisfies
`0.5 * d < cutoff`; otherwise (and when the cutoff is `None`) store
the potential as the single coulombic interaction. -/
def System.set_coulomb_potential (sys : System)
    (potential : CoulombicPotential) : Except String System :=
  match potential.cutoff with
  | some cutoff =>
    if sys.cell.lengths.any (fun d => decide (d / 2 < cutoff)) then
      .error cutoffPanicMessage
    else
      .ok { sys with
        interactions := { sys.interactions with coulomb := some potential } }
  | none =>
    .ok { sys with
      interactions := { sys.interactions with coulomb := some potential } }

/-- `System::add_global_potential`. -/
def System.add_global_potential (sys : System) (potential : ℕ) : System :=
  { sys with
    interactions := { sys.interactions with
      globals := sys.interactions.globals ++ [potential] } }

/-- `System::simulated_temperature`: `assert!(temperature >= 0.0)` on
`Some`, then store the option as the externally imposed temperature. -/
def System.simulated_temperature (sys : System) (temperature : Option ℚ) :
    Except String System :=
  match temperature with
  | some t =>
    if 0 ≤ t then .ok { sys with external_temperature := some t }
    else .error "External temperature must be positive"
  | none => .ok { sys with external_temperature := none }

/-- `System::temperature`: the externally imposed temperature when one
is set, otherwise the temperature computed from the velocities (the
latter computation lives outside the excerpt and is abstracted as the
argument `kineticTemperature`). -/
def System.temperature (sys : System) (kineticTemperature : ℚ) : ℚ :=
  match sys.external_temperature with
  | some value => value
  | none => kineticTemperature

/-- The particle at index `i` (the source indexes the particle arrays
directly; a default particle stands in for out-of-range access). -/
def System.particleAt (sys : System) (i : ℕ) : Particle :=
  sys.particles.getD i ⟨"", 0⟩

/-- Modelled from the spec: the `warn_once!` macro of the `log_once`
crate emits a message only the first time it is seen, tracked here as
the set of already-emitted messages. Returns the updated set and the
emitted message, if any. -/
def warnOnce (warned : List String) (msg : String) : List String × Option String :=
  if msg ∈ warned then (warned, none) else (warned ++ [msg], some msg)

/-- The common tail of the four lookup functions: if the potential list
for the tuple is empty, emit a one-time warning keyed by the
canonicalized message; otherwise leave the warning state alone. -/
def lookupWarn {α : Type} (sys : System) (result : List α) (msg : String) :
    List α × System × Option String :=
  if result.isEmpty then
    let w := warnOnce sys.warned msg
    (result, { sys with warned := w.1 }, w.2)
  else
    (result, sys, none)

/-- `System::pair_potentials`: resolve the kinds of the particles at
indexes `i` and `j`, look the canonicalized pair up in the registry,
and warn once (with the names sorted as in the source) when the list
is empty. -/
def System.pair_potentials (sys : System) (i j : ℕ) :
    List PairInteraction × System × Option String :=
  let kind_i := (sys.particleAt i).kind
  let kind_j := (sys.particleAt j).kind
  let pairs := (sys.interactions.pairs.filter
    (fun e => decide (e.1 = normalizePair kind_i kind_j))).map Prod.snd
  let name_i := (sys.particleAt i).name
  let name_j := (sys.particleAt j).name
  let names := if name_i < name_j then (name_i, name_j) else (name_j, name_i)
  lookupWarn sys pairs
    ("No potential defined for the pair (" ++ names.1 ++ ", " ++ names.2 ++ ")")

/-- `System::bond_potentials`: same shape as `pair_potentials`, over
the bond registry. -/
def System.bond_potentials (sys : System) (i j : ℕ) :
    List ℕ × System × Option String :=
  let kind_i := (sys.particleAt i).kind
  let kind_j := (sys.particleAt j).kind
  let bonds := (sys.interactions.bonds.filter
    (fun e => decide (e.1 = normalizePair kind_i kind_j))).map Prod.snd
  let name_i := (sys.particleAt i).name
  let name_j := (sys.particleAt j).name
  let names := if name_i < name_j then (name_i, name_j) else (name_j, name_i)
  lookupWarn sys bonds
    ("No potential defined for the bond (" ++ names.1 ++ ", " ++ names.2 ++ ")")

/-- `System::angle_potentials`: resolve the three kinds, look the
canonicalized triple up, and warn once with the names sorted as in the
source. -/
def System.angle_potentials (sys : System) (i j k : ℕ) :
    List ℕ × System × Option String :=
  let kind_i := (sys.particleAt i).kind
  let kind_j := (sys.particleAt j).kind
  let kind_k := (sys.particleAt k).kind
  let angles := (sys.interactions.angles.filter
    (fun e => decide (e.1 = normalizeAngle kind_i kind_j kind_k))).map Prod.snd
  let name_i := (sys.particleAt i).name
  let name_j := (sys.particleAt j).name
  let name_k := (sys.particleAt k).name
  let names := if name_i < name_k then (name_i, name_j, name_k)
    else (name_k, name_j, name_i)
  lookupWarn sys angles
    ("No potential defined for the angle (" ++ names.1 ++ ", " ++ names.2.1 ++
      ", " ++ names.2.2 ++ ")")

/-- The name sorting used by the warning of
`System::dihedral_potentials`. -/
def dihedralNameSort (a b c d : String) : String × String × String × String :=
  if max a b = max c d then
    if min a b < min c d then (a, b, c, d) else (d, c, b, a)
  else if max a b < max c d then (a, b, c, d) else (d, c, b, a)

/-- `System::dihedral_potentials`: resolve the four kinds, look the
canonicalized quadruple up, and warn once with the names sorted as in
the source. -/
def System.dihedral_potentials (sys : System) (i j k m : ℕ) :
    List ℕ × System × Option String :=
  let kind_i := (sys.particleAt i).kind
  let kind_j := (sys.particleAt j).kind
  let kind_k := (sys.particleAt k).kind
  let kind_m := (sys.particleAt m).kind
  let dihedrals := (sys.interactions.dihedrals.filter
    (fun e => decide (e.1 = normalizeDihedral kind_i kind_j kind_k kind_m))).map Prod.snd
  let names := dihedralNameSort (sys.particleAt i).name (sys.particleAt j).name
    (sys.particleAt k).name (sys.particleAt m).name
  lookupWarn sys dihedrals
    ("No potential defined for the dihedral angle (" ++ names.1 ++ ", " ++
      names.2.1 ++ ", " ++ names.2.2.1 ++ ", " ++ names.2.2.2 ++ ")")

/-!
The second part models the energy evaluation and the `EnergyCache`.
Modelled from the spec: the local evaluator, the Ewald and Wolf
engines, and the energy cache live in files outside the excerpt
(`src/benches/water.rs` only exercises them); their data model follows
sections 3, 4.3, 4.4, 4.5 and 4.6 of the specification. Positions are
exact rational triples, the transcendental kernels (Lennard-Jones,
`erfc(α r)/r`, the complex phase factors `q · exp(i k · r)`) are
abstract function parameters, and complex numbers are rational pairs.
-/

/-- A position or displacement vector. -/
abbrev Vec3 := ℚ × ℚ × ℚ

/-- Euclidean inner product of two vectors. -/
def dot3 (u v : Vec3) : ℚ :=
  u.1 * v.1 + u.2.1 * v.2.1 + u.2.2 * v.2.2

/-- Squared Euclidean norm of a vector. -/
def quadrance (v : Vec3) : ℚ :=
  dot3 v v

/-- A 3×3 matrix, used for the rotation part of a rigid-body move. -/
structure Mat3 where
  xx : ℚ
  xy : ℚ
  xz : ℚ
  yx : ℚ
  yy : ℚ
  yz : ℚ
  zx : ℚ
  zy : ℚ
  zz : ℚ
deriving DecidableEq, Repr

/-- Matrix-vector product. -/
def Mat3.apply (R : Mat3) (v : Vec3) : Vec3 :=
  (R.xx * v.1 + R.xy * v.2.1 + R.xz * v.2.2,
   R.yx * v.1 + R.yy * v.2.1 + R.yz * v.2.2,
   R.zx * v.1 + R.zy * v.2.1 + R.zz * v.2.2)

/-- Orthogonality of a matrix, written out as `Rᵀ R = 1` entry by
entry: the columns are orthonormal. -/
def IsOrthogonal (R : Mat3) : Prop :=
  R.xx * R.xx + R.yx * R.yx + R.zx * R.zx = 1 ∧
  R.xy * R.xy + R.yy * R.yy + R.zy * R.zy = 1 ∧
  R.xz * R.xz + R.yz * R.yz + R.zz * R.zz = 1 ∧
  R.xx * R.xy + R.yx * R.yy + R.zx * R.zy = 0 ∧
  R.xx * R.xz + R.yx * R.yz + R.zx * R.zz = 0 ∧
  R.xy * R.xz + R.yy * R.yz + R.zy * R.zz = 0

/-- The identity matrix. -/
def Mat3.id : Mat3 :=
  ⟨1, 0, 0, 0, 1, 0, 0, 0, 1⟩

/-- The unordered particle pairs `(i, j)` with `i < j < n`, the domain
of the all-pairs enumeration of the local evaluator. -/
def pairsFinset (n : ℕ) : Finset (ℕ × ℕ) :=
  (Finset.range n ×ˢ Finset.range n).filter (fun p => p.1 < p.2)

/-- Total pairwise energy: the sum over unordered pairs of a pair-term
function of the two indices (carrying kinds and restriction weights)
and the two positions. -/
def pairEnergyTotal (pairE : ℕ → ℕ → Vec3 → Vec3 → ℚ) (n : ℕ)
    (pos : ℕ → Vec3) : ℚ :=
  Finset.sum (pairsFinset n) (fun p => pairE p.1 p.2 (pos p.1) (pos p.2))

/-- The incremental pairwise recomputation of `move_particles_cost`:
only pairs with at least one moved endpoint are recomputed, old value
subtracted from new. -/
def movePairsCost (pairE : ℕ → ℕ → Vec3 → Vec3 → ℚ) (n : ℕ)
    (pos pos' : ℕ → Vec3) (moved : Finset ℕ) : ℚ :=
  Finset.sum ((pairsFinset n).filter (fun p => p.1 ∈ moved ∨ p.2 ∈ moved))
    (fun p => pairE p.1 p.2 (pos' p.1) (pos' p.2) - pairE p.1 p.2 (pos p.1) (pos p.2))

/-- Squared modulus of a complex number represented as a rational
pair. -/
def cnormSq (z : ℚ × ℚ) : ℚ :=
  z.1 * z.1 + z.2 * z.2

/-- Modelled from the spec (§4.4): the Ewald summation engine. The
k-vectors are indexed `0, …, kcount - 1`; `weight k` is the factor
`exp(-k²/4η²)/k²` normalized by the cell volume, `phase k i r` the
charge-weighted phase factor of particle `i` at k-vector `k`,
`realPair` the short-range real-space correction pair term, and
`selfEnergy` the position-independent self-energy term. -/
structure EwaldModel where
  kcount : ℕ
  weight : ℕ → ℚ
  phase : ℕ → ℕ → Vec3 → ℚ × ℚ
  realPair : ℕ → ℕ → Vec3 → Vec3 → ℚ
  selfEnergy : ℚ

/-- The structure factor at k-vector `k`: the sum over all particles
of the charge-weighted phase factors. -/
def EwaldModel.sfactor (e : EwaldModel) (k n : ℕ) (pos : ℕ → Vec3) : ℚ × ℚ :=
  Finset.sum (Finset.range n) (fun i => e.phase k i (pos i))

/-- The reciprocal-space energy: `Σ_k weight k · |S(k)|²`. -/
def EwaldModel.recipEnergy (e : EwaldModel) (n : ℕ) (pos : ℕ → Vec3) : ℚ :=
  Finset.sum (Finset.range e.kcount)
    (fun k => e.weight k * cnormSq (e.sfactor k n pos))

/-- The incremental reciprocal-space recomputation of
`move_particles_cost`: each structure factor is updated by the phase
difference of the moved particles only, and the energy difference is
taken per k-vector. -/
def EwaldModel.recipCost (e : EwaldModel) (n : ℕ) (pos pos' : ℕ → Vec3)
    (moved : Finset ℕ) : ℚ :=
  Finset.sum (Finset.range e.kcount) (fun k =>
    e.weight k *
      (cnormSq (e.sfactor k n pos +
        Finset.sum moved (fun i => e.phase k i (pos' i) - e.phase k i (pos i))) -
       cnormSq (e.sfactor k n pos)))

/-- Total Ewald energy: reciprocal term + real-space correction +
self-energy. -/
def EwaldModel.energy (e : EwaldModel) (n : ℕ) (pos : ℕ → Vec3) : ℚ :=
  e.recipEnergy n pos + pairEnergyTotal e.realPair n pos + e.selfEnergy

/-- The Ewald part of a move cost: incremental reciprocal update plus
incremental real-space pair recomputation; the self-energy is
position-independent and contributes nothing to a delta. -/
def EwaldModel.moveCost (e : EwaldModel) (n : ℕ) (pos pos' : ℕ → Vec3)
    (moved : Finset ℕ) : ℚ :=
  e.recipCost n pos pos' moved + movePairsCost e.realPair n pos pos' moved

/-- Modelled from the spec (§4.5): the Wolf summation engine. The
damped, shifted, cutoff-truncated pair kernel
`q_i q_j (erfc(α r)/r - shift)` (zero beyond the cutoff, with the
restriction weight applied) is abstracted as `pairTerm`; the
self-energy is an additive constant. -/
structure WolfModel where
  pairTerm : ℕ → ℕ → Vec3 → Vec3 → ℚ
  selfEnergy : ℚ

/-- Total Wolf energy: direct pair sum plus self-energy. -/
def WolfModel.energy (w : WolfModel) (n : ℕ) (pos : ℕ → Vec3) : ℚ :=
  pairEnergyTotal w.pairTerm n pos + w.selfEnergy

/-- The Wolf part of a move cost: incremental pair recomputation. -/
def WolfModel.moveCost (w : WolfModel) (n : ℕ) (pos pos' : ℕ → Vec3)
    (moved : Finset ℕ) : ℚ :=
  movePairsCost w.pairTerm n pos pos' moved

/-- The coulombic engine plugged into the evaluator: either Ewald or
Wolf. -/
inductive CoulombEngine where
  | ewald (e : EwaldModel)
  | wolf (w : WolfModel)

/-- Energy of the active coulombic engine. -/
def CoulombEngine.energy : CoulombEngine → ℕ → (ℕ → Vec3) → ℚ
  | .ewald e, n, pos => e.energy n pos
  | .wolf w, n, pos => w.energy n pos

/-- Move cost of the active coulombic engine. -/
def CoulombEngine.moveCost : CoulombEngine → ℕ → (ℕ → Vec3) → (ℕ → Vec3) → Finset ℕ → ℚ
  | .ewald e, n, pos, pos', moved => e.moveCost n pos pos' moved
  | .wolf w, n, pos, pos', moved => w.moveCost n pos pos' moved

/-- Modelled from the spec (§4.2–4.3): the interaction data consulted
by the evaluator. `pairE i j` is the restriction-weighted
non-coulombic pair term between particles `i` and `j`; the bonded
terms (bonds, angles, dihedrals) are indexed `0, …, nterms - 1`, each
with the set of particles it involves and its energy as a function of
the positions. -/
structure ForceField where
  pairE : ℕ → ℕ → Vec3 → Vec3 → ℚ
  nterms : ℕ
  involved : ℕ → Finset ℕ
  termE : ℕ → (ℕ → Vec3) → ℚ
  engine : CoulombEngine

/-- Total bonded energy: the sum of all bonded terms. -/
def ForceField.bondedEnergy (ff : ForceField) (pos : ℕ → Vec3) : ℚ :=
  Finset.sum (Finset.range ff.nterms) (fun t => ff.termE t pos)

/-- The incremental bonded recomputation of `move_particles_cost`:
only terms involving at least one moved particle are recomputed. -/
def ForceField.moveBondedCost (ff : ForceField) (pos pos' : ℕ → Vec3)
    (moved : Finset ℕ) : ℚ :=
  Finset.sum ((Finset.range ff.nterms).filter
      (fun t => (ff.involved t ∩ moved).Nonempty))
    (fun t => ff.termE t pos' - ff.termE t pos)

/-- A configuration: particle count, positions, and the molecule each
particle belongs to. -/
structure Config where
  n : ℕ
  pos : ℕ → Vec3
  mol : ℕ → ℕ

/-- The full potential energy of a configuration: local pair sum,
bonded sum, and the coulombic engine's global contribution. -/
def totalEnergy (ff : ForceField) (n : ℕ) (pos : ℕ → Vec3) : ℚ :=
  pairEnergyTotal ff.pairE n pos + ff.bondedEnergy pos + ff.engine.energy n pos

/-- The intramolecular part of the pair sum: pairs inside one
molecule. -/
def intraPairEnergy (ff : ForceField) (cfg : Config) (pos : ℕ → Vec3) : ℚ :=
  Finset.sum ((pairsFinset cfg.n).filter (fun p => cfg.mol p.1 = cfg.mol p.2))
    (fun p => ff.pairE p.1 p.2 (pos p.1) (pos p.2))

/-- The intermolecular incremental recomputation used by
`move_all_rigid_molecules_cost`: only pairs across two molecules are
recomputed. -/
def interPairsCost (ff : ForceField) (cfg : Config) (pos' : ℕ → Vec3) : ℚ :=
  Finset.sum ((pairsFinset cfg.n).filter (fun p => ¬ cfg.mol p.1 = cfg.mol p.2))
    (fun p => ff.pairE p.1 p.2 (pos' p.1) (pos' p.2) -
      ff.pairE p.1 p.2 (cfg.pos p.1) (cfg.pos p.2))

/-- The per-molecule rigid transform of a configuration: every
particle of molecule `m` is mapped through the same rotation `R m`
and translation `tr m`. -/
def rigidImage (R : ℕ → Mat3) (tr : ℕ → Vec3) (cfg : Config) : ℕ → Vec3 :=
  fun i => (R (cfg.mol i)).apply (cfg.pos i) + tr (cfg.mol i)

/-- Modelled from the spec (§3, §4.6): the `EnergyCache`. It stores
the energy breakdown of the current configuration — pair, bonded and
global (coulombic + other global) energies — plus the pending
breakdown delta of the last cost query, to be applied by the explicit
`update` commit. -/
structure EnergyCache where
  initialized : Bool
  pairsE : ℚ
  bondedE : ℚ
  globalE : ℚ
  pending : Option (ℚ × ℚ × ℚ)
deriving DecidableEq, Repr

/-- `EnergyCache::new`: an uninitialized cache. -/
def EnergyCache.new : EnergyCache :=
  ⟨false, 0, 0, 0, none⟩

/-- `EnergyCache::init`: one full evaluation, storing the breakdown. -/
def EnergyCache.init (ff : ForceField) (cfg : Config) : EnergyCache :=
  ⟨true, pairEnergyTotal ff.pairE cfg.n cfg.pos, ff.bondedEnergy cfg.pos,
    ff.engine.energy cfg.n cfg.pos, none⟩

/-- `EnergyCache::move_particles_cost`: an error before `init`;
otherwise the incremental pair + bonded + global delta for moving the
given particles to the positions of `pos'`. The stored breakdown is
untouched; only the pending delta is recorded for a later commit. -/
def EnergyCache.move_particles_cost (cache : EnergyCache) (ff : ForceField)
    (cfg : Config) (moved : Finset ℕ) (pos' : ℕ → Vec3) :
    Except String (ℚ × EnergyCache) :=
  if cache.initialized then
    let dpairs := movePairsCost ff.pairE cfg.n cfg.pos pos' moved
    let dbonded := ff.moveBondedCost cfg.pos pos' moved
    let dglobal := ff.engine.moveCost cfg.n cfg.pos pos' moved
    .ok (dpairs + dbonded + dglobal,
      { cache with pending := some (dpairs, dbonded, dglobal) })
  else
    .error "Can not compute a move cost on an uninitialized cache"

/-- `EnergyCache::move_all_rigid_molecules_cost`: an error before
`init`; otherwise the delta recomputes only the intermolecular pairs
and the global contribution — intramolecular pair and bonded terms are
skipped entirely, as they are invariant under a rigid per-molecule
transform. -/
def EnergyCache.move_all_rigid_molecules_cost (cache : EnergyCache)
    (ff : ForceField) (cfg : Config) (pos' : ℕ → Vec3) :
    Except String (ℚ × EnergyCache) :=
  if cache.initialized then
    let dpairs := interPairsCost ff cfg pos'
    let dglobal := ff.engine.moveCost cfg.n cfg.pos pos' (Finset.range cfg.n)
    .ok (dpairs + dglobal, { cache with pending := some (dpairs, 0, dglobal) })
  else
    .error "Can not compute a move cost on an uninitialized cache"

/-- The explicit commit: apply the pending breakdown delta of the last
cost query to the stored energies, instead of recomputing them. -/
def EnergyCache.update (cache : EnergyCache) : EnergyCache :=
  match cache.pending with
  | some d =>
    ⟨cache.initialized, cache.pairsE + d.1, cache.bondedE + d.2.1,
      cache.globalE + d.2.2, none⟩
  | none => cache

/-!
Operation and query sequences, used to state the append-only registry
invariant (any sequence of `add_molecule` and registration calls) and
the warn-once property (arbitrarily many repeated lookups).
-/

/-- A registry-touching operation on a `System`. -/
inductive SysOp where
  | addMolecule (names : List String)
  | addPair (i j : String) (potential : PairInteraction)
  | addBond (i j : String) (potential : ℕ)
  | addAngle (i j k : String) (potential : ℕ)
  | addDihedral (i j k m : String) (potential : ℕ)
  | setCoulomb (potential : CoulombicPotential)
  | addGlobal (potential : ℕ)
deriving DecidableEq, Repr

/-- Apply one operation; `add_pair_potential` and
`set_coulomb_potential` can panic. -/
def applySysOp (sys : System) : SysOp → Except String System
  | .addMolecule names => .ok (sys.add_molecule names)
  | .addPair i j p => sys.add_pair_potential i j p
  | .addBond i j p => .ok (sys.add_bond_potential i j p)
  | .addAngle i j k p => .ok (sys.add_angle_potential i j k p)
  | .addDihedral i j k m p => .ok (sys.add_dihedral_potential i j k m p)
  | .setCoulomb p => sys.set_coulomb_potential p
  | .addGlobal p => .ok (sys.add_global_potential p)

/-- Apply a sequence of operations, stopping at the first panic. -/
def applyOps : System → List SysOp → Except String System
  | sys, [] => .ok sys
  | sys, op :: rest =>
    match applySysOp sys op with
    | .ok sys' => applyOps sys' rest
    | .error e => .error e

/-- A lookup query against a system. -/
inductive Query where
  | pair (i j : ℕ)
  | bond (i j : ℕ)
  | angle (i j k : ℕ)
  | dihedral (i j k m : ℕ)
deriving DecidableEq, Repr

/-- Run one lookup, keeping the updated system and the emitted
warning, if any. -/
def runQuery (sys : System) : Query → System × Option String
  | .pair i j => (sys.pair_potentials i j).2
  | .bond i j => (sys.bond_potentials i j).2
  | .angle i j k => (sys.angle_potentials i j k).2
  | .dihedral i j k m => (sys.dihedral_potentials i j k m).2

/-- Run a sequence of lookups, collecting every emitted warning. -/
def runQueries : System → List Query → System × List String
  | sys, [] => (sys, [])
  | sys, q :: rest =>
    let r := runQuery sys q
    let rr := runQueries r.1 rest
    (rr.1, r.2.toList ++ rr.2)

/-- No pair potential was ever registered for the canonicalized kind
tuple of particles `i` and `j`. -/
def pairUnregistered (sys : System) (i j : ℕ) : Prop :=
  ∀ e ∈ sys.interactions.pairs,
    e.1 ≠ normalizePair (sys.particleAt i).kind (sys.particleAt j).kind

/-- No bond potential was ever registered for the canonicalized kind
tuple of particles `i` and `j`. -/
def bondUnregistered (sys : System) (i j : ℕ) : Prop :=
  ∀ e ∈ sys.interactions.bonds,
    e.1 ≠ normalizePair (sys.particleAt i).kind (sys.particleAt j).kind

/-- No angle potential was ever registered for the canonicalized kind
tuple of particles `i`, `j`, `k`. -/
def angleUnregistered (sys : System) (i j k : ℕ) : Prop :=
  ∀ e ∈ sys.interactions.angles,
    e.1 ≠ normalizeAngle (sys.particleAt i).kind (sys.particleAt j).kind
      (sys.particleAt k).kind

/-- No dihedral potential was ever registered for the canonicalized
kind tuple of particles `i`, `j`, `k`, `m`. -/
def dihedralUnregistered (sys : System) (i j k m : ℕ) : Prop :=
  ∀ e ∈ sys.interactions.dihedrals,
    e.1 ≠ normalizeDihedral (sys.particleAt i).kind (sys.particleAt j).kind
      (sys.particleAt k).kind (sys.particleAt m).kind

/-- The side condition under which the dihedral canonicalization is
symmetric under reversal of the kind tuple of particles `i, j, k, m`:
the two end pairs have different maxima, or different minima, or are
exact mirrors of each other. -/
def dihedralSymCond (sys : System) (i j k m : ℕ) : Prop :=
  max (sys.particleAt i).kind (sys.particleAt j).kind ≠
      max (sys.particleAt k).kind (sys.particleAt m).kind ∨
  min (sys.particleAt i).kind (sys.particleAt j).kind ≠
      min (sys.particleAt k).kind (sys.particleAt m).kind ∨
  ((sys.particleAt i).kind = (sys.particleAt m).kind ∧
   (sys.particleAt j).kind = (sys.particleAt k).kind)

/-- A concrete system with particle kinds `A ↦ 0`, `B ↦ 1`, particles
`[A, B, A, B]`, and one dihedral potential registered for the name
quadruple `(A, B, A, B)` — whose kind tuple `(0, 1, 0, 1)` falls in
the tie case of the dihedral canonicalization. -/
def exampleSystem7 : System :=
  (((((System.new ⟨100, 100, 100⟩).add_molecule ["A"]).add_molecule
    ["B"]).add_molecule ["A"]).add_molecule ["B"]).add_dihedral_potential
    "A" "B" "A" "B" 42

/-- A concrete system holding a single helium atom and no registered
potential, mirroring the `missing_interaction` test of the source. -/
def exampleSystem2 : System :=
  (System.new ⟨10, 10, 10⟩).add_molecule ["He"]

/-- A concrete cell for the kind-registry witness. -/
def cellW : UnitCell :=
  ⟨10, 10, 10⟩

/-- A concrete operation sequence: a water-like molecule then a lone
hydrogen. -/
def opsW : List SysOp :=
  [.addMolecule ["H", "O", "H"], .addMolecule ["H"]]

/-- The system reached by `opsW` from the fresh system. -/
def sW : System :=
  match applyOps (System.new cellW) opsW with
  | .ok s => s
  | .error _ => System.new cellW

/-- A concrete continuation: registering a bond potential. -/
def moreW : List SysOp :=
  [.addBond "H" "O" 7]

/-- The system reached by `moreW` from `sW`. -/
def sW' : System :=
  match applyOps sW moreW with
  | .ok s => s
  | .error _ => sW

/-- A concrete two-particle configuration (one particle per molecule)
for the energy-cache witnesses. -/
def cfgW : Config :=
  ⟨2, fun _ => (0, 0, 0), fun i => i⟩

/-- A concrete force field: distance-squared pair terms, no bonded
terms, and an Ewald engine with one k-vector. -/
def ffW : ForceField :=
  ⟨fun _ _ p q => quadrance (p - q), 0, fun _ => ∅, fun _ _ => 0,
    .ewald ⟨1, fun _ => 1, fun _ _ v => (v.1, v.2.1), fun _ _ _ _ => 0, 5⟩⟩

/-- The cache initialized on the witness configuration. -/
def cacheW : EnergyCache :=
  EnergyCache.init ffW cfgW

/-- Trial positions moving only particle 0. -/
def posW' : ℕ → Vec3 :=
  fun i => if i = 0 then (1, 2, 3) else cfgW.pos i

/-- The moved index set for the witness. -/
def movedW : Finset ℕ :=
  {0}

/-! ### Theorems -/

/-- **C1**: for every system, registering a pair potential — or a
coulombic potential with a finite cutoff — whose cutoff exceeds half
of the smallest cell length along some axis fails fast with the
configuration-error panic and never silently proceeds, while a
registration whose cutoff is at most half of every cell length
succeeds. -/
theorem C1_cutoff_vs_half_cell (sys : System) (i j : String)
    (pot : PairInteraction) (cp : CoulombicPotential) (c : ℚ)
    (hc : cp.cutoff = some c) :
    ((∃ d ∈ sys.cell.lengths, d / 2 < pot.cutoff) →
      sys.add_pair_potential i j pot = .error cutoffPanicMessage) ∧
    ((∀ d ∈ sys.cell.lengths, pot.cutoff ≤ d / 2) →
      ∃ sys', sys.add_pair_potential i j pot = .ok sys') ∧
    ((∃ d ∈ sys.cell.lengths, d / 2 < c) →
      sys.set_coulomb_potential cp = .error cutoffPanicMessage) ∧
    ((∀ d ∈ sys.cell.lengths, c ≤ d / 2) →
      ∃ sys', sys.set_coulomb_potential cp = .ok sys') := by
  refine ⟨?_, ?_, ?_, ?_⟩
  · intro h
    unfold System.add_pair_potential
    rw [if_pos]
    simpa only [List.any_eq_true, decide_eq_true_eq] using h
  · intro h
    unfold System.add_pair_potential
    rw [if_neg]
    · exact ⟨_, rfl⟩
    · simp only [List.any_eq_true, decide_eq_true_eq, not_exists, not_and, not_lt]
      intro d hd
      exact h d hd
  · intro h
    unfold System.set_coulomb_potential
    rw [hc]
    simp only
    rw [if_pos]
    simpa only [List.any_eq_true, decide_eq_true_eq] using h
  · intro h
    unfold System.set_coulomb_potential
    rw [hc]
    simp only
    rw [if_neg]
    · exact ⟨_, rfl⟩
    · simp only [List.any_eq_true, decide_eq_true_eq, not_exists, not_and, not_lt]
      intro d hd
      exact h d hd

/-- Witness for C1 on the cell `(4, 6, 8)`: cutoff 3 exceeds half of
the smallest length (2) and panics, cutoff 2 does not and succeeds. -/
theorem C1_cutoff_vs_half_cell_witness :
    ((System.new ⟨4, 6, 8⟩).add_pair_potential "A" "B" ⟨3⟩ =
      .error cutoffPanicMessage) ∧
    (∃ sys', (System.new ⟨4, 6, 8⟩).add_pair_potential "A" "B" ⟨2⟩ = .ok sys') ∧
    ((System.new ⟨4, 6, 8⟩).set_coulomb_potential ⟨some 3⟩ =
      .error cutoffPanicMessage) ∧
    (∃ sys', (System.new ⟨4, 6, 8⟩).set_coulomb_potential ⟨some 2⟩ = .ok sys') :=
  ⟨(C1_cutoff_vs_half_cell (System.new ⟨4, 6, 8⟩) "A" "B" ⟨3⟩ ⟨some 3⟩ 3 rfl).1
      ⟨4, by simp [System.new, UnitCell.lengths], by norm_num⟩,
   (C1_cutoff_vs_half_cell (System.new ⟨4, 6, 8⟩) "A" "B" ⟨2⟩ ⟨some 3⟩ 3 rfl).2.1
      (by
        intro d hd
        simp only [System.new, UnitCell.lengths, List.mem_cons,
          List.not_mem_nil, or_false] at hd
        rcases hd with rfl | rfl | rfl <;> norm_num),
   (C1_cutoff_vs_half_cell (System.new ⟨4, 6, 8⟩) "A" "B" ⟨3⟩ ⟨some 3⟩ 3 rfl).2.2.1
      ⟨4, by simp [System.new, UnitCell.lengths], by norm_num⟩,
   (C1_cutoff_vs_half_cell (System.new ⟨4, 6, 8⟩) "A" "B" ⟨3⟩ ⟨some 2⟩ 2 rfl).2.2.2
      (by
        intro d hd
        simp only [System.new, UnitCell.lengths, List.mem_cons,
          List.not_mem_nil, or_false] at hd
        rcases hd with rfl | rfl | rfl <;> norm_num)⟩

/-- **C10**: a coulombic potential whose cutoff is `None` is always
accepted by `set_coulomb_potential`, with no half-cell check. -/
theorem C10_long_ranged_coulomb_always_accepted (sys : System)
    (cp : CoulombicPotential) (h : cp.cutoff = none) :
    sys.set_coulomb_potential cp =
      .ok { sys with
        interactions := { sys.interactions with coulomb := some cp } } := by
  unfold System.set_coulomb_potential
  rw [h]

/-- Witness for C10: an Ewald-style potential with no real-space
cutoff is accepted even in a tiny cell. -/
theorem C10_long_ranged_coulomb_always_accepted_witness :
    (System.new ⟨1, 1, 1⟩).set_coulomb_potential ⟨none⟩ =
      .ok { System.new ⟨1, 1, 1⟩ with
        interactions := { (System.new ⟨1, 1, 1⟩).interactions with
          coulomb := some ⟨none⟩ } } :=
  C10_long_ranged_coulomb_always_accepted (System.new ⟨1, 1, 1⟩) ⟨none⟩ rfl

/-- **C8**: imposing a negative external temperature fails fast with
the assertion panic; a non-negative temperature `t` succeeds and makes
`temperature()` return `t` regardless of the velocity-derived
temperature. -/
theorem C8_simulated_temperature (sys : System) (t : ℚ) :
    (t < 0 → sys.simulated_temperature (some t) =
      .error "External temperature must be positive") ∧
    (0 ≤ t → ∃ sys', sys.simulated_temperature (some t) = .ok sys' ∧
      ∀ kineticTemperature, sys'.temperature kineticTemperature = t) := by
  constructor
  · intro h
    simp only [System.simulated_temperature]
    rw [if_neg (not_le.mpr h)]
  · intro h
    refine ⟨{ sys with external_temperature := some t }, ?_, fun kt => rfl⟩
    simp only [System.simulated_temperature]
    rw [if_pos h]

/-- Witness for C8 at `t = -1` (panic) and `t = 300` (accepted and
returned by `temperature()`). -/
theorem C8_simulated_temperature_witness :
    ((System.new ⟨1, 1, 1⟩).simulated_temperature (some (-1)) =
      .error "External temperature must be positive") ∧
    (∃ sys', (System.new ⟨1, 1, 1⟩).simulated_temperature (some 300) = .ok sys' ∧
      ∀ kineticTemperature, sys'.temperature kineticTemperature = 300) :=
  ⟨(C8_simulated_temperature (System.new ⟨1, 1, 1⟩) (-1)).1 (by norm_num),
   (C8_simulated_temperature (System.new ⟨1, 1, 1⟩) 300).2 (by norm_num)⟩

theorem lookupWarn_fst {α : Type} (sys : System) (res : List α) (msg : String) :
    (lookupWarn sys res msg).1 = res := by
  simp only [lookupWarn]
  split <;> rfl

theorem lookupWarn_warned_evolution {α : Type} (sys : System) (res : List α)
    (msg : String) :
    ((lookupWarn sys res msg).2.2 = none ∧
      (lookupWarn sys res msg).2.1.warned = sys.warned) ∨
    (∃ m, (lookupWarn sys res msg).2.2 = some m ∧ m ∉ sys.warned ∧
      (lookupWarn sys res msg).2.1.warned = sys.warned ++ [m]) := by
  simp only [lookupWarn, warnOnce]
  split
  · split
    · exact Or.inl ⟨rfl, rfl⟩
    · rename_i hmem
      exact Or.inr ⟨msg, rfl, hmem, rfl⟩
  · exact Or.inl ⟨rfl, rfl⟩

theorem runQuery_warned (sys : System) (q : Query) :
    ((runQuery sys q).2 = none ∧ (runQuery sys q).1.warned = sys.warned) ∨
    (∃ m, (runQuery sys q).2 = some m ∧ m ∉ sys.warned ∧
      (runQuery sys q).1.warned = sys.warned ++ [m]) := by
  cases q with
  | pair i j => exact lookupWarn_warned_evolution sys _ _
  | bond i j => exact lookupWarn_warned_evolution sys _ _
  | angle i j k => exact lookupWarn_warned_evolution sys _ _
  | dihedral i j k m => exact lookupWarn_warned_evolution sys _ _

theorem runQueries_count (qs : List Query) : ∀ (sys : System) (m : String),
    (m ∈ sys.warned → (runQueries sys qs).2.count m = 0) ∧
    (runQueries sys qs).2.count m ≤ 1 := by
  induction qs with
  | nil =>
    intro sys m
    exact ⟨fun _ => rfl, by simp [runQueries]⟩
  | cons q rest ih =>
    intro sys m
    have hsplit : (runQueries sys (q :: rest)).2 =
        (runQuery sys q).2.toList ++ (runQueries (runQuery sys q).1 rest).2 := by
      simp [runQueries]
    rcases runQuery_warned sys q with ⟨hnone, hw⟩ | ⟨m', hsome, hmem, hw⟩
    · constructor
      · intro hm
        rw [hsplit, hnone]
        simpa using (ih (runQuery sys q).1 m).1 (hw ▸ hm)
      · rw [hsplit, hnone]
        simpa using (ih (runQuery sys q).1 m).2
    · by_cases heq : m' = m
      · subst heq
        constructor
        · intro hm
          exact absurd hm hmem
        · rw [hsplit, hsome]
          have hrest : (runQueries (runQuery sys q).1 rest).2.count m' = 0 :=
            (ih (runQuery sys q).1 m').1 (by rw [hw]; simp)
          simp [List.count_append, hrest]
      · constructor
        · intro hm
          rw [hsplit, hsome]
          have hrest : (runQueries (runQuery sys q).1 rest).2.count m = 0 :=
            (ih (runQuery sys q).1 m).1 (by rw [hw]; simp [hm])
          simp [List.count_append, hrest, List.count_cons, heq]
        · rw [hsplit, hsome]
          have hrest := (ih (runQuery sys q).1 m).2
          simp [List.count_append, List.count_cons, heq]
          omega

theorem pair_potentials_unregistered (sys : System) (i j : ℕ)
    (h : pairUnregistered sys i j) : (sys.pair_potentials i j).1 = [] := by
  simp only [System.pair_potentials, lookupWarn_fst]
  rw [List.map_eq_nil_iff, List.filter_eq_nil_iff]
  intro e he
  simpa using h e he

theorem bond_potentials_unregistered (sys : System) (i j : ℕ)
    (h : bondUnregistered sys i j) : (sys.bond_potentials i j).1 = [] := by
  simp only [System.bond_potentials, lookupWarn_fst]
  rw [List.map_eq_nil_iff, List.filter_eq_nil_iff]
  intro e he
  simpa using h e he

theorem angle_potentials_unregistered (sys : System) (i j k : ℕ)
    (h : angleUnregistered sys i j k) : (sys.angle_potentials i j k).1 = [] := by
  simp only [System.angle_potentials, lookupWarn_fst]
  rw [List.map_eq_nil_iff, List.filter_eq_nil_iff]
  intro e he
  simpa using h e he

theorem dihedral_potentials_unregistered (sys : System) (i j k m : ℕ)
    (h : dihedralUnregistered sys i j k m) :
    (sys.dihedral_potentials i j k m).1 = [] := by
  simp only [System.dihedral_potentials, lookupWarn_fst]
  rw [List.map_eq_nil_iff, List.filter_eq_nil_iff]
  intro e he
  simpa using h e he

/-- **C2**: looking up potentials for a kind tuple that was never
registered (pair, bond, angle or dihedral) is not an error: it returns
an empty list; and across an arbitrary sequence of lookups, at most
one diagnostic warning is emitted per canonicalized message. -/
theorem C2_unregistered_lookup (sys : System) (i j k m : ℕ) (qs : List Query)
    (msg : String)
    (hp : pairUnregistered sys i j) (hb : bondUnregistered sys i j)
    (ha : angleUnregistered sys i j k) (hd : dihedralUnregistered sys i j k m) :
    (sys.pair_potentials i j).1 = [] ∧
    (sys.bond_potentials i j).1 = [] ∧
    (sys.angle_potentials i j k).1 = [] ∧
    (sys.dihedral_potentials i j k m).1 = [] ∧
    (runQueries sys qs).2.count msg ≤ 1 :=
  ⟨pair_potentials_unregistered sys i j hp,
   bond_potentials_unregistered sys i j hb,
   angle_potentials_unregistered sys i j k ha,
   dihedral_potentials_unregistered sys i j k m hd,
   (runQueries_count qs sys msg).2⟩

/-- Witness for C2: a single helium atom with no registered potential;
all four lookups are empty and repeated queries warn at most once. -/
theorem C2_unregistered_lookup_witness :
    (exampleSystem2.pair_potentials 0 0).1 = [] ∧
    (exampleSystem2.bond_potentials 0 0).1 = [] ∧
    (exampleSystem2.angle_potentials 0 0 0).1 = [] ∧
    (exampleSystem2.dihedral_potentials 0 0 0 0).1 = [] ∧
    (runQueries exampleSystem2
      [.pair 0 0, .pair 0 0, .angle 0 0 0]).2.count
        "No potential defined for the pair (He, He)" ≤ 1 :=
  C2_unregistered_lookup exampleSystem2 0 0 0 0
    [.pair 0 0, .pair 0 0, .angle 0 0 0]
    "No potential defined for the pair (He, He)"
    (by
      intro e he
      rw [show exampleSystem2.interactions.pairs = [] from rfl] at he
      exact absurd he (List.not_mem_nil e))
    (by
      intro e he
      rw [show exampleSystem2.interactions.bonds = [] from rfl] at he
      exact absurd he (List.not_mem_nil e))
    (by
      intro e he
      rw [show exampleSystem2.interactions.angles = [] from rfl] at he
      exact absurd he (List.not_mem_nil e))
    (by
      intro e he
      rw [show exampleSystem2.interactions.dihedrals = [] from rfl] at he
      exact absurd he (List.not_mem_nil e))

theorem kindOf_lt_length (l : List String) (name : String) (k : ℕ)
    (h : kindOf l name = some k) : k < l.length := by
  induction l generalizing k with
  | nil => simp [kindOf] at h
  | cons x rest ih =>
    by_cases hx : x = name
    · simp only [kindOf, if_pos hx, Option.some.injEq] at h
      simp [← h]
    · simp only [kindOf, if_neg hx, Option.map_eq_some'] at h
      obtain ⟨k', hk', rfl⟩ := h
      simpa using ih k' hk'

theorem kindOf_get (l : List String) (name : String) (k : ℕ)
    (h : kindOf l name = some k) : l.getD k "" = name := by
  induction l generalizing k with
  | nil => simp [kindOf] at h
  | cons x rest ih =>
    by_cases hx : x = name
    · simp only [kindOf, if_pos hx, Option.some.injEq] at h
      subst hx
      simp [← h]
    · simp only [kindOf, if_neg hx, Option.map_eq_some'] at h
      obtain ⟨k', hk', rfl⟩ := h
      simpa using ih k' hk'

theorem kindOf_append_some (l t : List String) (name : String) (k : ℕ)
    (h : kindOf l name = some k) : kindOf (l ++ t) name = some k := by
  induction l generalizing k with
  | nil => simp [kindOf] at h
  | cons x rest ih =>
    by_cases hx : x = name
    · simp only [kindOf, if_pos hx, Option.some.injEq] at h
      simp [kindOf, if_pos hx, h]
    · simp only [kindOf, if_neg hx, Option.map_eq_some'] at h
      obtain ⟨k', hk', rfl⟩ := h
      simp only [List.cons_append, kindOf, if_neg hx, Option.map_eq_some']
      exact ⟨k', ih k' hk', rfl⟩

theorem kindOf_self_append (l : List String) (name : String)
    (h : kindOf l name = none) :
    kindOf (l ++ [name]) name = some l.length := by
  induction l with
  | nil => simp [kindOf]
  | cons x rest ih =>
    by_cases hx : x = name
    · simp [kindOf, if_pos hx] at h
    · have h' : kindOf rest name = none := by
        simpa [kindOf, if_neg hx, Option.map_eq_none'] using h
      show kindOf (x :: (rest ++ [name])) name = some (rest.length + 1)
      simp only [kindOf, if_neg hx, ih h']
      rfl

theorem getKind_sound (kinds : List String) (name : String) :
    kindOf (getKind kinds name).2 name = some (getKind kinds name).1 := by
  unfold getKind
  cases h : kindOf kinds name with
  | some i => simp [h]
  | none => simpa [h] using kindOf_self_append kinds name h

theorem getKind_extend (kinds : List String) (name : String) :
    ∃ t, (getKind kinds name).2 = kinds ++ t := by
  unfold getKind
  cases h : kindOf kinds name with
  | some i => exact ⟨[], by simp⟩
  | none => exact ⟨[name], by simp⟩

theorem assignKinds_extend (names : List String) :
    ∀ kinds, ∃ t, (assignKinds names kinds).2 = kinds ++ t := by
  induction names with
  | nil => intro kinds; exact ⟨[], by simp [assignKinds]⟩
  | cons name rest ih =>
    intro kinds
    obtain ⟨t1, h1⟩ := getKind_extend kinds name
    obtain ⟨t2, h2⟩ := ih (getKind kinds name).2
    refine ⟨t1 ++ t2, ?_⟩
    show (assignKinds rest (getKind kinds name).2).2 = kinds ++ (t1 ++ t2)
    rw [h2, h1, List.append_assoc]

theorem assignKinds_consistent (names : List String) :
    ∀ kinds, ∀ p ∈ (assignKinds names kinds).1,
      kindOf (assignKinds names kinds).2 p.name = some p.kind := by
  induction names with
  | nil => intro kinds p hp; simp [assignKinds] at hp
  | cons name rest ih =>
    intro kinds p hp
    simp only [assignKinds, List.mem_cons] at hp
    rcases hp with rfl | hp
    · show kindOf (assignKinds rest (getKind kinds name).2).2 name =
        some (getKind kinds name).1
      obtain ⟨t, ht⟩ := assignKinds_extend rest (getKind kinds name).2
      rw [ht]
      exact kindOf_append_some _ _ _ _ (getKind_sound kinds name)
    · exact ih _ p hp

theorem applySysOp_kinds (sys : System) (op : SysOp) (sys' : System)
    (h : applySysOp sys op = .ok sys') :
    (∃ t, sys'.kinds = sys.kinds ++ t) ∧
    ((∀ p ∈ sys.particles, kindOf sys.kinds p.name = some p.kind) →
      ∀ p ∈ sys'.particles, kindOf sys'.kinds p.name = some p.kind) := by
  have extend2 : ∀ (kinds : List String) (i j : String),
      ∃ t, (getKind (getKind kinds i).2 j).2 = kinds ++ t := by
    intro kinds i j
    obtain ⟨t1, h1⟩ := getKind_extend kinds i
    obtain ⟨t2, h2⟩ := getKind_extend (getKind kinds i).2 j
    exact ⟨t1 ++ t2, by rw [h2, h1, List.append_assoc]⟩
  cases op with
  | addMolecule names =>
    simp only [applySysOp, Except.ok.injEq] at h
    subst h
    obtain ⟨t, ht⟩ := assignKinds_extend names sys.kinds
    constructor
    · exact ⟨t, ht⟩
    · intro hc p hp
      simp only [System.add_molecule, List.mem_append] at hp ⊢
      rcases hp with hp | hp
      · rw [ht]
        exact kindOf_append_some _ _ _ _ (hc p hp)
      · exact assignKinds_consistent names sys.kinds p hp
  | addPair i j pot =>
    simp only [applySysOp, System.add_pair_potential] at h
    split at h
    · exact absurd h (by simp)
    · simp only [Except.ok.injEq] at h
      subst h
      obtain ⟨t, ht⟩ := extend2 sys.kinds i j
      refine ⟨⟨t, ht⟩, fun hc p hp => ?_⟩
      rw [show (getKind (getKind sys.kinds i).2 j).2 = sys.kinds ++ t from ht]
      exact kindOf_append_some _ _ _ _ (hc p hp)
  | addBond i j pot =>
    simp only [applySysOp, System.add_bond_potential, Except.ok.injEq] at h
    subst h
    obtain ⟨t, ht⟩ := extend2 sys.kinds i j
    exact ⟨⟨t, ht⟩, fun hc p hp => by
      rw [show (getKind (getKind sys.kinds i).2 j).2 = sys.kinds ++ t from ht]
      exact kindOf_append_some _ _ _ _ (hc p hp)⟩
  | addAngle i j k pot =>
    simp only [applySysOp, System.add_angle_potential, Except.ok.injEq] at h
    subst h
    obtain ⟨t1, h1⟩ := extend2 sys.kinds i j
    obtain ⟨t2, h2⟩ := getKind_extend (getKind (getKind sys.kinds i).2 j).2 k
    have ht : (getKind (getKind (getKind sys.kinds i).2 j).2 k).2 =
        sys.kinds ++ (t1 ++ t2) := by
      rw [h2, h1, List.append_assoc]
    exact ⟨⟨t1 ++ t2, ht⟩, fun hc p hp => by
      rw [ht]
      exact kindOf_append_some _ _ _ _ (hc p hp)⟩
  | addDihedral i j k m pot =>
    simp only [applySysOp, System.add_dihedral_potential, Except.ok.injEq] at h
    subst h
    obtain ⟨t1, h1⟩ := extend2 sys.kinds i j
    obtain ⟨t2, h2⟩ := extend2 (getKind (getKind sys.kinds i).2 j).2 k m
    have ht : (getKind (getKind (getKind (getKind sys.kinds i).2 j).2 k).2 m).2 =
        sys.kinds ++ (t1 ++ t2) := by
      rw [h2, h1, List.append_assoc]
    exact ⟨⟨t1 ++ t2, ht⟩, fun hc p hp => by
      rw [ht]
      exact kindOf_append_some _ _ _ _ (hc p hp)⟩
  | setCoulomb pot =>
    simp only [applySysOp, System.set_coulomb_potential] at h
    cases hcut : pot.cutoff with
    | some c =>
      rw [hcut] at h
      simp only at h
      split at h
      · exact absurd h (by simp)
      · simp only [Except.ok.injEq] at h
        subst h
        exact ⟨⟨[], by simp⟩, fun hc p hp => hc p hp⟩
    | none =>
      rw [hcut] at h
      simp only [Except.ok.injEq] at h
      subst h
      exact ⟨⟨[], by simp⟩, fun hc p hp => hc p hp⟩
  | addGlobal pot =>
    simp only [applySysOp, System.add_global_potential, Except.ok.injEq] at h
    subst h
    exact ⟨⟨[], by simp⟩, fun hc p hp => hc p hp⟩

theorem applyOps_kinds (ops : List SysOp) : ∀ (sys sys' : System),
    applyOps sys ops = .ok sys' →
    (∃ t, sys'.kinds = sys.kinds ++ t) ∧
    ((∀ p ∈ sys.particles, kindOf sys.kinds p.name = some p.kind) →
      ∀ p ∈ sys'.particles, kindOf sys'.kinds p.name = some p.kind) := by
  induction ops with
  | nil =>
    intro sys sys' h
    simp only [applyOps, Except.ok.injEq] at h
    subst h
    exact ⟨⟨[], by simp⟩, fun hc => hc⟩
  | cons op rest ih =>
    intro sys sys' h
    simp only [applyOps] at h
    cases hop : applySysOp sys op with
    | error e => rw [hop] at h; exact absurd h (by simp)
    | ok sys₁ =>
      rw [hop] at h
      obtain ⟨⟨t1, ht1⟩, hc1⟩ := applySysOp_kinds sys op sys₁ hop
      obtain ⟨⟨t2, ht2⟩, hc2⟩ := ih sys₁ sys' h
      exact ⟨⟨t1 ++ t2, by rw [ht2, ht1, List.append_assoc]⟩,
        fun hc => hc2 (hc1 hc)⟩

/-- **C6**: after any successful sequence of `add_molecule` and
potential-registration calls, every particle's kind is the index of
the first appearance of its name in the append-only name registry; two
particles have the same name exactly when they have the same kind; and
under any further successful operations the registry only grows and no
assigned kind ever changes. -/
theorem C6_kind_registry (cell : UnitCell) (ops more : List SysOp)
    (s s' : System)
    (h : applyOps (System.new cell) ops = .ok s)
    (h' : applyOps s more = .ok s') :
    (∀ p ∈ s.particles, kindOf s.kinds p.name = some p.kind) ∧
    (∀ p ∈ s.particles, ∀ q ∈ s.particles, (p.name = q.name ↔ p.kind = q.kind)) ∧
    (∃ t, s'.kinds = s.kinds ++ t) ∧
    (∀ p ∈ s.particles, kindOf s'.kinds p.name = some p.kind) := by
  have base : ∀ p ∈ (System.new cell).particles,
      kindOf (System.new cell).kinds p.name = some p.kind := by
    intro p hp
    simp [System.new] at hp
  obtain ⟨_, hcons⟩ := applyOps_kinds ops (System.new cell) s h
  have hs := hcons base
  obtain ⟨⟨t1, ht1⟩, _⟩ := applyOps_kinds more s s' h'
  refine ⟨hs, ?_, ⟨t1, ht1⟩, ?_⟩
  · intro p hp q hq
    constructor
    · intro hname
      have h1 := hs p hp
      have h2 := hs q hq
      rw [hname, h2, Option.some.injEq] at h1
      exact h1.symm
    · intro hkind
      have g1 := kindOf_get _ _ _ (hs p hp)
      have g2 := kindOf_get _ _ _ (hs q hq)
      rw [hkind] at g1
      rw [← g1, ← g2]
  · intro p hp
    rw [ht1]
    exact kindOf_append_some _ _ _ _ (hs p hp)

/-- Witness for C6: three hydrogens and one oxygen added across two
molecules, followed by a bond registration. -/
theorem C6_kind_registry_witness :
    (∀ p ∈ sW.particles, kindOf sW.kinds p.name = some p.kind) ∧
    (∀ p ∈ sW.particles, ∀ q ∈ sW.particles, (p.name = q.name ↔ p.kind = q.kind)) ∧
    (∃ t, sW'.kinds = sW.kinds ++ t) ∧
    (∀ p ∈ sW.particles, kindOf sW'.kinds p.name = some p.kind) :=
  C6_kind_registry cellW opsW moreW sW sW' rfl rfl

theorem normalizePair_symm (i j : ℕ) : normalizePair i j = normalizePair j i := by
  unfold normalizePair
  rcases lt_trichotomy i j with h | h | h
  · rw [if_pos h, if_neg (not_lt.mpr h.le)]
  · subst h; rfl
  · rw [if_neg (not_lt.mpr h.le), if_pos h]

theorem normalizeAngle_symm (i j k : ℕ) :
    normalizeAngle i j k = normalizeAngle k j i := by
  unfold normalizeAngle
  rcases lt_trichotomy i k with h | h | h
  · rw [if_pos h, if_neg (not_lt.mpr h.le)]
  · subst h; rfl
  · rw [if_neg (not_lt.mpr h.le), if_pos h]

theorem normalizeDihedral_symm (i j k m : ℕ)
    (h : max i j ≠ max k m ∨ min i j ≠ min k m ∨ (i = m ∧ j = k)) :
    normalizeDihedral i j k m = normalizeDihedral m k j i := by
  unfold normalizeDihedral
  rcases lt_trichotomy (max i j) (max k m) with hAB | hAB | hAB
  · rw [if_neg (ne_of_lt hAB), if_pos hAB,
      if_neg (by rw [max_comm m k, max_comm j i]; exact (ne_of_lt hAB).symm),
      if_neg (by rw [max_comm m k, max_comm j i]; exact not_lt.mpr hAB.le)]
  · rcases lt_trichotomy (min i j) (min k m) with hab | hab | hab
    · rw [if_pos hAB, if_pos hab,
        if_pos (by rw [max_comm m k, max_comm j i]; exact hAB.symm),
        if_neg (by rw [min_comm m k, min_comm j i]; exact not_lt.mpr hab.le)]
    · rcases h with h | h | ⟨rfl, rfl⟩
      · exact absurd hAB h
      · exact absurd hab h
      · rfl
    · rw [if_pos hAB, if_neg (not_lt.mpr hab.le),
        if_pos (by rw [max_comm m k, max_comm j i]; exact hAB.symm),
        if_pos (by rw [min_comm m k, min_comm j i]; exact hab)]
  · rw [if_neg (ne_of_lt hAB).symm, if_neg (not_lt.mpr hAB.le),
      if_neg (by rw [max_comm m k, max_comm j i]; exact ne_of_lt hAB),
      if_pos (by rw [max_comm m k, max_comm j i]; exact hAB)]

/-- Counterexample to **C7** as stated: in `exampleSystem7` the
dihedral kind tuple `(0, 1, 0, 1)` and its reversal `(1, 0, 1, 0)`
fall in the tie case of the canonicalization (`max` and `min` of both
end pairs agree without the tuple being its own mirror), and the two
queries canonicalize to different keys: the forward lookup finds the
registered potential, the reversed lookup finds nothing. -/
theorem C7_counterexample :
    (exampleSystem7.dihedral_potentials 0 1 2 3).1 ≠
      (exampleSystem7.dihedral_potentials 3 2 1 0).1 := by
  decide

/-- **C7 (amended)**: pair and angle lookups are always symmetric
under tuple reversal; dihedral lookups are symmetric whenever the kind
tuple is outside the tie case of the canonicalization — the two end
pairs differ in `max`, or differ in `min`, or mirror each other
exactly. -/
theorem C7_canonicalized_lookup_symmetry (sys : System) (i j k m : ℕ)
    (h : dihedralSymCond sys i j k m) :
    (∀ a b, (sys.pair_potentials a b).1 = (sys.pair_potentials b a).1) ∧
    (∀ a b c,
      (sys.angle_potentials a b c).1 = (sys.angle_potentials c b a).1) ∧
    (sys.dihedral_potentials i j k m).1 =
      (sys.dihedral_potentials m k j i).1 := by
  refine ⟨fun a b => ?_, fun a b c => ?_, ?_⟩
  · simp only [System.pair_potentials, lookupWarn_fst]
    rw [normalizePair_symm]
  · simp only [System.angle_potentials, lookupWarn_fst]
    rw [normalizeAngle_symm]
  · simp only [System.dihedral_potentials, lookupWarn_fst]
    rw [normalizeDihedral_symm _ _ _ _ h]

/-- Witness for the amended C7, at a dihedral kind tuple
`(0, 0, 1, 1)` whose end pairs have different maxima. -/
theorem C7_canonicalized_lookup_symmetry_witness :
    (∀ a b, (exampleSystem7.pair_potentials a b).1 =
      (exampleSystem7.pair_potentials b a).1) ∧
    (∀ a b c, (exampleSystem7.angle_potentials a b c).1 =
      (exampleSystem7.angle_potentials c b a).1) ∧
    (exampleSystem7.dihedral_potentials 0 0 1 1).1 =
      (exampleSystem7.dihedral_potentials 1 1 0 0).1 :=
  C7_canonicalized_lookup_symmetry exampleSystem7 0 0 1 1
    (by unfold dihedralSymCond; decide)

theorem movePairsCost_spec (pairE : ℕ → ℕ → Vec3 → Vec3 → ℚ) (n : ℕ)
    (pos pos' : ℕ → Vec3) (moved : Finset ℕ)
    (h : ∀ i ∈ Finset.range n, i ∉ moved → pos' i = pos i) :
    movePairsCost pairE n pos pos' moved =
      pairEnergyTotal pairE n pos' - pairEnergyTotal pairE n pos := by
  unfold movePairsCost pairEnergyTotal
  rw [← Finset.sum_sub_distrib]
  apply Finset.sum_filter_of_ne
  intro p hp hne
  by_contra hnp
  push_neg at hnp
  obtain ⟨h1, h2⟩ := hnp
  unfold pairsFinset at hp
  rw [Finset.mem_filter, Finset.mem_product] at hp
  obtain ⟨⟨hp1, hp2⟩, _⟩ := hp
  rw [h p.1 hp1 h1, h p.2 hp2 h2] at hne
  exact hne (sub_self _)

theorem sfactor_update (e : EwaldModel) (k n : ℕ) (pos pos' : ℕ → Vec3)
    (moved : Finset ℕ) (hsub : moved ⊆ Finset.range n)
    (h : ∀ i ∈ Finset.range n, i ∉ moved → pos' i = pos i) :
    e.sfactor k n pos +
      Finset.sum moved (fun i => e.phase k i (pos' i) - e.phase k i (pos i)) =
      e.sfactor k n pos' := by
  unfold EwaldModel.sfactor
  have hext : Finset.sum moved
      (fun i => e.phase k i (pos' i) - e.phase k i (pos i)) =
      Finset.sum (Finset.range n)
        (fun i => e.phase k i (pos' i) - e.phase k i (pos i)) := by
    apply Finset.sum_subset hsub
    intro i hi hni
    rw [h i hi hni, sub_self]
  rw [hext, Finset.sum_sub_distrib]
  abel

theorem recipCost_spec (e : EwaldModel) (n : ℕ) (pos pos' : ℕ → Vec3)
    (moved : Finset ℕ) (hsub : moved ⊆ Finset.range n)
    (h : ∀ i ∈ Finset.range n, i ∉ moved → pos' i = pos i) :
    e.recipCost n pos pos' moved =
      e.recipEnergy n pos' - e.recipEnergy n pos := by
  unfold EwaldModel.recipCost EwaldModel.recipEnergy
  rw [← Finset.sum_sub_distrib]
  apply Finset.sum_congr rfl
  intro k hk
  rw [sfactor_update e k n pos pos' moved hsub h]
  ring

theorem engineMoveCost_spec (eng : CoulombEngine) (n : ℕ)
    (pos pos' : ℕ → Vec3) (moved : Finset ℕ)
    (hsub : moved ⊆ Finset.range n)
    (h : ∀ i ∈ Finset.range n, i ∉ moved → pos' i = pos i) :
    eng.moveCost n pos pos' moved = eng.energy n pos' - eng.energy n pos := by
  cases eng with
  | ewald e =>
    simp only [CoulombEngine.moveCost, CoulombEngine.energy,
      EwaldModel.moveCost, EwaldModel.energy]
    rw [recipCost_spec e n pos pos' moved hsub h,
      movePairsCost_spec _ n pos pos' moved h]
    ring
  | wolf w =>
    simp only [CoulombEngine.moveCost, CoulombEngine.energy,
      WolfModel.moveCost, WolfModel.energy]
    rw [movePairsCost_spec _ n pos pos' moved h]
    ring

theorem moveBondedCost_spec (ff : ForceField) (n : ℕ) (pos pos' : ℕ → Vec3)
    (moved : Finset ℕ)
    (hterms : ∀ t ∈ Finset.range ff.nterms, ff.involved t ⊆ Finset.range n)
    (hloc : ∀ t ps qs, (∀ i ∈ ff.involved t, ps i = qs i) →
      ff.termE t ps = ff.termE t qs)
    (h : ∀ i ∈ Finset.range n, i ∉ moved → pos' i = pos i) :
    ff.moveBondedCost pos pos' moved =
      ff.bondedEnergy pos' - ff.bondedEnergy pos := by
  unfold ForceField.moveBondedCost ForceField.bondedEnergy
  rw [← Finset.sum_sub_distrib]
  apply Finset.sum_filter_of_ne
  intro t ht hne
  by_contra hnp
  rw [Finset.not_nonempty_iff_eq_empty] at hnp
  have hagree : ff.termE t pos' = ff.termE t pos := by
    apply hloc
    intro i hi
    apply h i (hterms t ht hi)
    intro hmem
    have hin : i ∈ ff.involved t ∩ moved := Finset.mem_inter.mpr ⟨hi, hmem⟩
    rw [hnp] at hin
    exact absurd hin (Finset.not_mem_empty i)
  rw [hagree, sub_self] at hne
  exact hne rfl

theorem Mat3.apply_sub (R : Mat3) (u v : Vec3) :
    R.apply u - R.apply v = R.apply (u - v) := by
  obtain ⟨u1, u2, u3⟩ := u
  obtain ⟨v1, v2, v3⟩ := v
  simp only [Mat3.apply, Prod.mk_sub_mk, Prod.mk.injEq]
  refine ⟨by ring, by ring, by ring⟩

theorem quadrance_mat_apply (R : Mat3) (h : IsOrthogonal R) (v : Vec3) :
    quadrance (R.apply v) = quadrance v := by
  obtain ⟨h1, h2, h3, h4, h5, h6⟩ := h
  obtain ⟨x, y, z⟩ := v
  simp only [Mat3.apply, quadrance, dot3]
  linear_combination (x * x) * h1 + (y * y) * h2 + (z * z) * h3 +
    (2 * x * y) * h4 + (2 * x * z) * h5 + (2 * y * z) * h6

/-- **C3**: on an initialized cache, `move_particles_cost` for a
subset of particles moved to new positions returns exactly
`energy(after) − energy(before)` — hence in particular it is within
the 1e-6 relative floating tolerance of it — for any engine, Ewald or
Wolf. The hypotheses state that the unmoved particles keep their
positions and that each bonded term reads only the positions of the
particles it involves. -/
theorem C3_move_particles_cost (ff : ForceField) (cfg : Config)
    (cache : EnergyCache) (moved : Finset ℕ) (pos' : ℕ → Vec3)
    (hinit : cache.initialized = true)
    (hsub : moved ⊆ Finset.range cfg.n)
    (hfix : ∀ i ∈ Finset.range cfg.n, i ∉ moved → pos' i = cfg.pos i)
    (hterms : ∀ t ∈ Finset.range ff.nterms, ff.involved t ⊆ Finset.range cfg.n)
    (hloc : ∀ t ps qs, (∀ i ∈ ff.involved t, ps i = qs i) →
      ff.termE t ps = ff.termE t qs) :
    ∃ δ cache', cache.move_particles_cost ff cfg moved pos' = .ok (δ, cache') ∧
      δ = totalEnergy ff cfg.n pos' - totalEnergy ff cfg.n cfg.pos ∧
      |δ - (totalEnergy ff cfg.n pos' - totalEnergy ff cfg.n cfg.pos)| ≤
        1 / 1000000 * |totalEnergy ff cfg.n pos' - totalEnergy ff cfg.n cfg.pos| := by
  have hδ : movePairsCost ff.pairE cfg.n cfg.pos pos' moved +
      ff.moveBondedCost cfg.pos pos' moved +
      ff.engine.moveCost cfg.n cfg.pos pos' moved =
      totalEnergy ff cfg.n pos' - totalEnergy ff cfg.n cfg.pos := by
    rw [movePairsCost_spec ff.pairE cfg.n cfg.pos pos' moved hfix,
      moveBondedCost_spec ff cfg.n cfg.pos pos' moved hterms hloc hfix,
      engineMoveCost_spec ff.engine cfg.n cfg.pos pos' moved hsub hfix]
    unfold totalEnergy
    ring
  refine ⟨movePairsCost ff.pairE cfg.n cfg.pos pos' moved +
      ff.moveBondedCost cfg.pos pos' moved +
      ff.engine.moveCost cfg.n cfg.pos pos' moved,
    { cache with pending := some (movePairsCost ff.pairE cfg.n cfg.pos pos' moved,
      ff.moveBondedCost cfg.pos pos' moved,
      ff.engine.moveCost cfg.n cfg.pos pos' moved) }, ?_, hδ, ?_⟩
  · unfold EnergyCache.move_particles_cost
    rw [if_pos hinit]
  · rw [hδ, sub_self, abs_zero]
    positivity

/-- Witness for C3 on the two-particle configuration `cfgW`, moving
particle 0. -/
theorem C3_move_particles_cost_witness :
    ∃ δ cache', cacheW.move_particles_cost ffW cfgW movedW posW' =
      .ok (δ, cache') ∧
      δ = totalEnergy ffW cfgW.n posW' - totalEnergy ffW cfgW.n cfgW.pos ∧
      |δ - (totalEnergy ffW cfgW.n posW' - totalEnergy ffW cfgW.n cfgW.pos)| ≤
        1 / 1000000 *
          |totalEnergy ffW cfgW.n posW' - totalEnergy ffW cfgW.n cfgW.pos| :=
  C3_move_particles_cost ffW cfgW cacheW movedW posW' rfl
    (by decide)
    (fun i _ hni => if_neg (fun h => hni (Finset.mem_singleton.mpr h)))
    (fun t ht => absurd ht (by simp [ffW]))
    (fun t ps qs _ => rfl)

/-- **C4**: on an initialized cache, for a configuration obtained by a
rigid per-molecule transform (orthogonal rotation plus translation,
with pair terms depending only on squared distance and bonded terms
local to one molecule and invariant under isometries),
`move_all_rigid_molecules_cost` — which recomputes only the
intermolecular pairs and the global engine contribution — equals the
full energy difference, while the intramolecular pair energy and the
bonded energy are exactly unchanged. -/
theorem C4_move_all_rigid_molecules_cost (ff : ForceField) (cfg : Config)
    (cache : EnergyCache) (R : ℕ → Mat3) (tr : ℕ → Vec3)
    (f : ℕ → ℕ → ℚ → ℚ)
    (hinit : cache.initialized = true)
    (horth : ∀ mol, IsOrthogonal (R mol))
    (hdist : ∀ a b p q, ff.pairE a b p q = f a b (quadrance (p - q)))
    (hloc : ∀ t ps qs, (∀ i ∈ ff.involved t, ps i = qs i) →
      ff.termE t ps = ff.termE t qs)
    (hinv : ∀ t (S : Mat3) (w : Vec3) (ps : ℕ → Vec3), IsOrthogonal S →
      ff.termE t (fun i => S.apply (ps i) + w) = ff.termE t ps)
    (hmol : ∀ t ∈ Finset.range ff.nterms, ∃ mol, ∀ i ∈ ff.involved t,
      cfg.mol i = mol) :
    ∃ δ cache',
      cache.move_all_rigid_molecules_cost ff cfg (rigidImage R tr cfg) =
        .ok (δ, cache') ∧
      δ = totalEnergy ff cfg.n (rigidImage R tr cfg) -
        totalEnergy ff cfg.n cfg.pos ∧
      intraPairEnergy ff cfg (rigidImage R tr cfg) =
        intraPairEnergy ff cfg cfg.pos ∧
      ff.bondedEnergy (rigidImage R tr cfg) = ff.bondedEnergy cfg.pos := by
  have hpair_intra : ∀ p : ℕ × ℕ, cfg.mol p.1 = cfg.mol p.2 →
      ff.pairE p.1 p.2 (rigidImage R tr cfg p.1) (rigidImage R tr cfg p.2) =
      ff.pairE p.1 p.2 (cfg.pos p.1) (cfg.pos p.2) := by
    intro p hm
    rw [hdist, hdist]
    congr 1
    unfold rigidImage
    rw [hm, add_sub_add_right_eq_sub, Mat3.apply_sub,
      quadrance_mat_apply _ (horth _)]
  have hintra : intraPairEnergy ff cfg (rigidImage R tr cfg) =
      intraPairEnergy ff cfg cfg.pos := by
    unfold intraPairEnergy
    apply Finset.sum_congr rfl
    intro p hp
    rw [Finset.mem_filter] at hp
    exact hpair_intra p hp.2
  have hbond : ff.bondedEnergy (rigidImage R tr cfg) =
      ff.bondedEnergy cfg.pos := by
    unfold ForceField.bondedEnergy
    apply Finset.sum_congr rfl
    intro t ht
    obtain ⟨mol, hmolt⟩ := hmol t ht
    have hagree : ff.termE t (rigidImage R tr cfg) =
        ff.termE t (fun i => (R mol).apply (cfg.pos i) + tr mol) := by
      apply hloc
      intro i hi
      unfold rigidImage
      rw [hmolt i hi]
    rw [hagree, hinv t (R mol) (tr mol) cfg.pos (horth mol)]
  have hsplit : ∀ ps : ℕ → Vec3, pairEnergyTotal ff.pairE cfg.n ps =
      Finset.sum ((pairsFinset cfg.n).filter
        (fun p => cfg.mol p.1 = cfg.mol p.2))
        (fun p => ff.pairE p.1 p.2 (ps p.1) (ps p.2)) +
      Finset.sum ((pairsFinset cfg.n).filter
        (fun p => ¬ cfg.mol p.1 = cfg.mol p.2))
        (fun p => ff.pairE p.1 p.2 (ps p.1) (ps p.2)) := by
    intro ps
    unfold pairEnergyTotal
    exact (Finset.sum_filter_add_sum_filter_not _ _ _).symm
  have hinter : interPairsCost ff cfg (rigidImage R tr cfg) =
      pairEnergyTotal ff.pairE cfg.n (rigidImage R tr cfg) -
        pairEnergyTotal ff.pairE cfg.n cfg.pos := by
    unfold interPairsCost
    rw [hsplit (rigidImage R tr cfg), hsplit cfg.pos,
      Finset.sum_sub_distrib]
    unfold intraPairEnergy at hintra
    rw [hintra]
    ring
  have hengine := engineMoveCost_spec ff.engine cfg.n cfg.pos
    (rigidImage R tr cfg) (Finset.range cfg.n) (subset_refl _)
    (fun i hi hni => absurd hi hni)
  have hδ : interPairsCost ff cfg (rigidImage R tr cfg) +
      ff.engine.moveCost cfg.n cfg.pos (rigidImage R tr cfg)
        (Finset.range cfg.n) =
      totalEnergy ff cfg.n (rigidImage R tr cfg) -
        totalEnergy ff cfg.n cfg.pos := by
    rw [hinter, hengine]
    unfold totalEnergy
    rw [hbond]
    ring
  refine ⟨interPairsCost ff cfg (rigidImage R tr cfg) +
      ff.engine.moveCost cfg.n cfg.pos (rigidImage R tr cfg)
        (Finset.range cfg.n),
    { cache with pending := some (interPairsCost ff cfg (rigidImage R tr cfg),
      0, ff.engine.moveCost cfg.n cfg.pos (rigidImage R tr cfg)
        (Finset.range cfg.n)) }, ?_, hδ, hintra, hbond⟩
  unfold EnergyCache.move_all_rigid_molecules_cost
  rw [if_pos hinit]

/-- Witness for C4: the identity rotation plus the translation
`(1, 2, 3)` applied to every molecule of `cfgW`. -/
theorem C4_move_all_rigid_molecules_cost_witness :
    ∃ δ cache',
      cacheW.move_all_rigid_molecules_cost ffW cfgW
        (rigidImage (fun _ => Mat3.id) (fun _ => (1, 2, 3)) cfgW) =
        .ok (δ, cache') ∧
      δ = totalEnergy ffW cfgW.n
          (rigidImage (fun _ => Mat3.id) (fun _ => (1, 2, 3)) cfgW) -
        totalEnergy ffW cfgW.n cfgW.pos ∧
      intraPairEnergy ffW cfgW
          (rigidImage (fun _ => Mat3.id) (fun _ => (1, 2, 3)) cfgW) =
        intraPairEnergy ffW cfgW cfgW.pos ∧
      ffW.bondedEnergy
          (rigidImage (fun _ => Mat3.id) (fun _ => (1, 2, 3)) cfgW) =
        ffW.bondedEnergy cfgW.pos :=
  C4_move_all_rigid_molecules_cost ffW cfgW cacheW (fun _ => Mat3.id)
    (fun _ => (1, 2, 3)) (fun _ _ d => d) rfl
    (fun _ => by unfold IsOrthogonal Mat3.id; norm_num)
    (fun a b p q => rfl)
    (fun t ps qs _ => rfl)
    (fun t S w ps _ => rfl)
    (fun t ht => absurd ht (by simp [ffW]))

/-- **C5**: cost queries on an initialized cache never change the
stored energy breakdown: both cost methods return the cache with the
same pair, bonded and global energies, a repeated identical query
returns the same delta again, and only the explicit `update` commit
changes the stored energies — by exactly the previously-returned
breakdown delta. -/
theorem C5_cost_queries_pure (ff : ForceField) (cfg : Config)
    (cache : EnergyCache) (moved : Finset ℕ) (pos' : ℕ → Vec3)
    (hinit : cache.initialized = true) :
    ∃ r, cache.move_particles_cost ff cfg moved pos' = .ok r ∧
      r.2.pairsE = cache.pairsE ∧ r.2.bondedE = cache.bondedE ∧
      r.2.globalE = cache.globalE ∧
      (∃ r2, r.2.move_particles_cost ff cfg moved pos' = .ok r2 ∧
        r2.1 = r.1 ∧ r2.2.pairsE = cache.pairsE ∧
        r2.2.bondedE = cache.bondedE ∧ r2.2.globalE = cache.globalE) ∧
      (∃ r3, cache.move_all_rigid_molecules_cost ff cfg pos' = .ok r3 ∧
        r3.2.pairsE = cache.pairsE ∧ r3.2.bondedE = cache.bondedE ∧
        r3.2.globalE = cache.globalE) ∧
      r.2.update.pairsE =
        cache.pairsE + movePairsCost ff.pairE cfg.n cfg.pos pos' moved ∧
      r.2.update.bondedE = cache.bondedE + ff.moveBondedCost cfg.pos pos' moved ∧
      r.2.update.globalE =
        cache.globalE + ff.engine.moveCost cfg.n cfg.pos pos' moved ∧
      r.2.update.pending = none := by
  have step : ∀ (c : EnergyCache), c.initialized = true →
      c.move_particles_cost ff cfg moved pos' =
        .ok (movePairsCost ff.pairE cfg.n cfg.pos pos' moved +
          ff.moveBondedCost cfg.pos pos' moved +
          ff.engine.moveCost cfg.n cfg.pos pos' moved,
          { c with pending := some (movePairsCost ff.pairE cfg.n cfg.pos pos' moved,
            ff.moveBondedCost cfg.pos pos' moved,
            ff.engine.moveCost cfg.n cfg.pos pos' moved) }) := by
    intro c hc
    unfold EnergyCache.move_particles_cost
    rw [if_pos hc]
  refine ⟨_, step cache hinit, rfl, rfl, rfl, ?_, ?_, rfl, rfl, rfl, rfl⟩
  · refine ⟨_, step { cache with
      pending := some (movePairsCost ff.pairE cfg.n cfg.pos pos' moved,
        ff.moveBondedCost cfg.pos pos' moved,
        ff.engine.moveCost cfg.n cfg.pos pos' moved) } hinit, ?_, ?_, ?_, ?_⟩ <;>
      rfl
  · have step3 : cache.move_all_rigid_molecules_cost ff cfg pos' =
        .ok (interPairsCost ff cfg pos' +
          ff.engine.moveCost cfg.n cfg.pos pos' (Finset.range cfg.n),
          { cache with pending := some (interPairsCost ff cfg pos', 0,
            ff.engine.moveCost cfg.n cfg.pos pos' (Finset.range cfg.n)) }) := by
      unfold EnergyCache.move_all_rigid_molecules_cost
      rw [if_pos hinit]
    exact ⟨_, step3, rfl, rfl, rfl⟩

/-- Witness for C5 on the initialized cache `cacheW`. -/
theorem C5_cost_queries_pure_witness :
    ∃ r, cacheW.move_particles_cost ffW cfgW movedW posW' = .ok r ∧
      r.2.pairsE = cacheW.pairsE ∧ r.2.bondedE = cacheW.bondedE ∧
      r.2.globalE = cacheW.globalE ∧
      (∃ r2, r.2.move_particles_cost ffW cfgW movedW posW' = .ok r2 ∧
        r2.1 = r.1 ∧ r2.2.pairsE = cacheW.pairsE ∧
        r2.2.bondedE = cacheW.bondedE ∧ r2.2.globalE = cacheW.globalE) ∧
      (∃ r3, cacheW.move_all_rigid_molecules_cost ffW cfgW posW' = .ok r3 ∧
        r3.2.pairsE = cacheW.pairsE ∧ r3.2.bondedE = cacheW.bondedE ∧
        r3.2.globalE = cacheW.globalE) ∧
      r.2.update.pairsE =
        cacheW.pairsE + movePairsCost ffW.pairE cfgW.n cfgW.pos posW' movedW ∧
      r.2.update.bondedE =
        cacheW.bondedE + ffW.moveBondedCost cfgW.pos posW' movedW ∧
      r.2.update.globalE =
        cacheW.globalE + ffW.engine.moveCost cfgW.n cfgW.pos posW' movedW ∧
      r.2.update.pending = none :=
  C5_cost_queries_pure ffW cfgW cacheW movedW posW' rfl

end Lumol
